import Mathlib

/-!
Verification development for the rss-to-linkedin pipeline.

The Python modules `angles.py`, `memory.py` and `fetch_feeds.py` are
shallowly embedded: dictionaries become structures or association lists,
`datetime` instants become integer second counts, floats become rationals,
`random.choice` becomes an explicit choice-function parameter, and file or
network effects become explicit inputs.
-/

namespace RssToLinkedin

/-- An article dictionary as produced by the fetcher or handed to the angle
selector.  Python `dict.get(key, '')` lookups are modelled with
`Option.getD`: a missing key is `none`. -/
structure Article where
  title : Option String
  summary : Option String
  link : Option String
  deriving DecidableEq, Repr, Inhabited

/-- The six keys of the `ANGLES` dictionary in `angles.py`, in insertion
(= iteration) order. -/
inductive AngleKey where
  | history_arc
  | data_bomb
  | practitioner_signal
  | contrarian_reframe
  | forward_look
  | first_principles
  deriving DecidableEq, Repr, Inhabited

/-- The static data attached to each angle in `angles.py` that the
selection logic reads: trigger keywords and the numeric weight (floats
embedded as rationals). -/
structure AngleInfo where
  name : String
  triggers : List String
  weight : ℚ
  deriving Repr

/-- The `ANGLES` table of `angles.py`. -/
def ANGLES : AngleKey → AngleInfo
  | .history_arc =>
    { name := "History Arc"
      triggers := ["policy", "regulatory", "fta", "agreement", "reform", "scheme"]
      weight := 1 }
  | .data_bomb =>
    { name := "Data Bomb"
      triggers := ["billion", "million", "percent", "%", "growth", "surge", "record"]
      weight := 12/10 }
  | .practitioner_signal =>
    { name := "Practitioner Signal"
      triggers := ["banks", "exporters", "msme", "compliance", "implementation", "circular"]
      weight := 11/10 }
  | .contrarian_reframe =>
    { name := "Contrarian Reframe"
      triggers := ["market", "sentiment", "outlook", "forecast", "consensus"]
      weight := 1 }
  | .forward_look =>
    { name := "Forward Look"
      triggers := ["talks", "negotiations", "pilot", "launch", "begin", "start", "new"]
      weight := 9/10 }
  | .first_principles =>
    { name := "First Principles"
      triggers := ["infrastructure", "framework", "system", "mechanism", "structure"]
      weight := 8/10 }

/-- Iteration order of the `ANGLES` dict (`for angle_key in ANGLES`). -/
def angleKeys : List AngleKey :=
  [.history_arc, .data_bomb, .practitioner_signal, .contrarian_reframe,
   .forward_look, .first_principles]

/-- Python substring test `needle in haystack` on character lists. -/
def containsSub (needle : List Char) : List Char → Bool
  | [] => needle.isEmpty
  | c :: rest => needle.isPrefixOf (c :: rest) || containsSub needle rest

/-- The lowercased scoring text of an article:
the title, a space and the summary concatenated and lowercased, with a
missing key read as the empty string. -/
def scoringText (article : Article) : List Char :=
  ((article.title.getD "" ++ " " ++ article.summary.getD "").toLower).data

/-- The count `sum(1 for trigger in angle.triggers if trigger in text)`. -/
def triggerMatches (angleKey : AngleKey) (text : List Char) : Nat :=
  (ANGLES angleKey).triggers.countP (fun trigger => containsSub trigger.data text)

/-- First alternative of the number regex: `\d+\.?\d*%`.  Returns the length
of the match starting at the head of `s`, if any.  The regex backtracking
analysis collapses to maximal munch because the digit class, the dot and
the percent sign are disjoint. -/
def matchPercent (s : List Char) : Option Nat :=
  let d1 := s.takeWhile Char.isDigit
  if d1.isEmpty then none else
  let rest := s.drop d1.length
  let (dotLen, rest') :=
    match rest with
    | '.' :: r => (1, r)
    | _ => (0, rest)
  let d2 := rest'.takeWhile Char.isDigit
  match rest'.drop d2.length with
  | '%' :: _ => some (d1.length + dotLen + d2.length + 1)
  | _ => none

/-- Currency alternatives `\$\d+` and `₹\d+`. -/
def matchCurrency (sym : Char) (s : List Char) : Option Nat :=
  match s with
  | c :: rest =>
    if c = sym then
      let d := rest.takeWhile Char.isDigit
      if d.isEmpty then none else some (1 + d.length)
    else none
  | [] => none

/-- Quantity alternatives `\d+ billion`, `\d+ million`, `\d+ crore`. -/
def matchQuantity (unit : List Char) (s : List Char) : Option Nat :=
  let d := s.takeWhile Char.isDigit
  if d.isEmpty then none else
  if unit.isPrefixOf (s.drop d.length) then some (d.length + unit.length) else none

/-- One attempt of the `data_bomb` regex
`\d+\.?\d*%|\$\d+|₹\d+|\d+ billion|\d+ million|\d+ crore` at the head of
`s`, trying the alternatives in source order. -/
def matchNumberPattern (s : List Char) : Option Nat :=
  (matchPercent s).orElse fun _ =>
  (matchCurrency '$' s).orElse fun _ =>
  (matchCurrency '₹' s).orElse fun _ =>
  (matchQuantity " billion".data s).orElse fun _ =>
  (matchQuantity " million".data s).orElse fun _ =>
  matchQuantity " crore".data s

/-- The `re.findall` scan: at each position try the pattern; on a match of
length `n` skip `n` characters, otherwise advance one character.  Fuel is
the length of the text (every match consumes at least one character). -/
def countNumbersAux : Nat → List Char → Nat
  | 0, _ => 0
  | _, [] => 0
  | fuel + 1, s@(_ :: rest) =>
    match matchNumberPattern s with
    | some n => 1 + countNumbersAux fuel (s.drop n)
    | none => countNumbersAux fuel rest

/-- The bonus count of `re.findall` over the number pattern in the text. -/
def countNumbers (text : List Char) : Nat :=
  countNumbersAux text.length text

/-- Embeds `score_article_for_angle` from `angles.py`.  Floats become
rationals. -/
def score_article_for_angle (article : Article) (angle_key : AngleKey) : ℚ :=
  let angle := ANGLES angle_key
  let text := scoringText article
  let trigger_matches := triggerMatches angle_key text
  let score : ℚ := trigger_matches * angle.weight
  if angle_key = .data_bomb then score + countNumbers text * (5/10) else score

/-- The `angle_scores` dict built by the selection loop: every angle not in
`used_angles` is scored, in `ANGLES` iteration order; if that leaves no
candidate the loop rebuilds the dict over all angles (the reset branch). -/
def candidateScores (article : Article) (used_angles : List AngleKey) :
    List (AngleKey × ℚ) :=
  let angle_scores :=
    (angleKeys.filter (fun k => !used_angles.contains k)).map
      (fun k => (k, score_article_for_angle article k))
  if angle_scores.isEmpty then
    angleKeys.map (fun k => (k, score_article_for_angle article k))
  else
    angle_scores

/-- Python `max` over the values of a nonempty dict (`0` on the empty list,
which never occurs). -/
def maxScore : List (AngleKey × ℚ) → ℚ
  | [] => 0
  | p :: rest => rest.foldl (fun m q => max m q.2) p.2

/-- The shortlist `[k for k, v in angle_scores.items() if v >= max_score * 0.8]`. -/
def topAngles (article : Article) (used_angles : List AngleKey) : List AngleKey :=
  let angle_scores := candidateScores article used_angles
  let max_score := maxScore angle_scores
  (angle_scores.filter (fun p => max_score * (8/10) ≤ p.2)).map (·.1)

/-- The draw `random.choice(top_angles)`, with the randomness supplied as a natural
number `r`; any distribution over `r` reaches every element. -/
def selectedAngle (article : Article) (used_angles : List AngleKey) (r : Nat) :
    AngleKey :=
  let top := topAngles article used_angles
  top.getD (r % top.length) .history_arc

/-- The selection loop of `select_angles_for_posts`: `n` iterations left,
`i` the current index, `used` the `used_angles` set (as a list; only
membership is consulted).  `choice` supplies the random draw of each
iteration. -/
def selectLoop (articles : List Article) (choice : Nat → Nat) :
    Nat → Nat → List AngleKey → List (Article × AngleKey × AngleInfo)
  | 0, _, _ => []
  | n + 1, i, used =>
    let article := articles.getD i default
    let selected := selectedAngle article used (choice i)
    (article, selected, ANGLES selected) :: selectLoop articles choice n (i + 1) (selected :: used)

/-- Embeds `select_angles_for_posts` from `angles.py`: raises `ValueError` when
fewer articles than posts are supplied, otherwise runs the loop. -/
def select_angles_for_posts (articles : List Article) (choice : Nat → Nat)
    (num_posts : Nat) : Except String (List (Article × AngleKey × AngleInfo)) :=
  if articles.length < num_posts then
    .error ("Need at least " ++ toString num_posts ++ " articles")
  else
    .ok (selectLoop articles choice num_posts 0 [])

/-! ## memory.py

Instants (`datetime.now()`, stored ISO timestamps) are embedded as integer
second counts; `timedelta(days=d)` is `d * 86400` seconds.  The JSON store
is passed and returned explicitly in place of the read/rewrite of the
memory file. -/

/-- The nested `article` dict of a `PostRecord`. -/
structure ArticleRef where
  title : String
  url : String
  source : String
  deriving DecidableEq, Repr

/-- A post record as built by `record_post`.  `published_at` is absent
(`none`) until `mark_published` adds it. -/
structure PostRecord where
  id : String
  date : String
  post_number : Nat
  pillar : String
  article : ArticleRef
  hook : String
  content : String
  image_path : Option String
  published : Bool
  created_at : Int
  published_at : Option Int
  deriving DecidableEq, Repr

/-- The JSON store `{"posts": [...], "articles_used": {...}}`; the
`articles_used` dict is an association list from URL to last-used instant. -/
structure Store where
  posts : List PostRecord
  articles_used : List (String × Int)
  deriving DecidableEq, Repr

/-- The store `_load_memory` returns when the file is missing. -/
def emptyStore : Store := { posts := [], articles_used := [] }

/-- The state of the memory file on disk: absent, present but not decodable
into the expected shape, or holding a well-formed store. -/
inductive LoadInput where
  | missing
  | malformed
  | stored (s : Store)

/-- Embeds `_load_memory` from `memory.py`: a missing file yields the empty store;
otherwise `json.load` runs, and on a malformed file its exception
propagates (embedded as `Except.error`). -/
def _load_memory : LoadInput → Except String Store
  | .missing => .ok emptyStore
  | .malformed => .error "JSONDecodeError"
  | .stored s => .ok s

/-- Dict lookup `articles_used[url]` as `Option`. -/
def lookupUsed (url : String) : List (String × Int) → Option Int
  | [] => none
  | (u, t) :: rest => if u = url then some t else lookupUsed url rest

/-- Dict assignment `articles_used[url] = t`: overwrite the existing entry
or append a new one. -/
def upsertUsed (url : String) (t : Int) : List (String × Int) → List (String × Int)
  | [] => [(url, t)]
  | (u, t') :: rest =>
    if u = url then (url, t) :: rest else (u, t') :: upsertUsed url t rest

/-- Embeds `is_article_used` from `memory.py`: the URL has a record and
`last_used > now - timedelta(days=days_lookback)`. -/
def is_article_used (memory : Store) (article_url : String)
    (days_lookback : Nat) (now : Int) : Bool :=
  match lookupUsed article_url memory.articles_used with
  | none => false
  | some last_used => decide (now - days_lookback * 86400 < last_used)

/-- Embeds `filter_unused_articles` from `memory.py`:
keeps the articles whose link (a missing key read as the empty string)
fails `is_article_used`. -/
def filter_unused_articles (memory : Store) (articles : List Article)
    (days_lookback : Nat) (now : Int) : List Article :=
  articles.filter (fun a => !is_article_used memory (a.link.getD "") days_lookback now)

/-- Embeds `record_post` from `memory.py`: append the new post record, upsert the
article-usage timestamp, save.  Returns the saved store and the record. -/
def record_post (memory : Store) (date : String) (post_number : Nat)
    (pillar article_title article_url article_source hook post_content : String)
    (image_path : Option String) (published : Bool) (now : Int) :
    Store × PostRecord :=
  let post_record : PostRecord :=
    { id := date ++ "_post" ++ toString post_number
      date := date
      post_number := post_number
      pillar := pillar
      article := { title := article_title, url := article_url, source := article_source }
      hook := hook
      content := post_content
      image_path := image_path
      published := published
      created_at := now
      published_at := none }
  ({ posts := memory.posts ++ [post_record]
     articles_used := upsertUsed article_url now memory.articles_used },
   post_record)

/-- The loop body of `mark_published`: update the first record whose id
matches, or report that none does. -/
def markFirst (post_id : String) (now : Int) : List PostRecord → Option (List PostRecord)
  | [] => none
  | p :: rest =>
    if p.id = post_id then
      some ({ p with published := true, published_at := some now } :: rest)
    else
      (markFirst post_id now rest).map (p :: ·)

/-- Embeds `mark_published` from `memory.py`: on the first matching record set
`published` and `published_at` and save, returning `true`; return `false`
and leave the store untouched when no record matches. -/
def mark_published (memory : Store) (post_id : String) (now : Int) : Store × Bool :=
  match markFirst post_id now memory.posts with
  | some posts => ({ memory with posts := posts }, true)
  | none => (memory, false)

/-! ## fetch_feeds.py

Network and parser effects are passed in explicitly: each feed comes with
the outcome `feedparser.parse` produced for it (an exception, or a parse
result with its `bozo` flag and entry list).  The thread pool only
determines the order in which results are collected, so `fetch_all_feeds`
is modelled over the already-ordered list of per-feed results. -/

/-- A feed descriptor row from `feeds.csv` (after `load_feeds`). -/
structure Feed where
  name : String
  category : String
  priority : String
  url : String
  deriving DecidableEq, Repr

/-- A raw feedparser entry: optional title/link/summary and the optional
parsed publication instants. -/
structure RawEntry where
  title : Option String
  link : Option String
  summary : Option String
  published_parsed : Option Int
  updated_parsed : Option Int
  deriving DecidableEq, Repr

/-- An output entry dict of `fetch_single_feed`. -/
structure Entry where
  title : String
  link : String
  summary : String
  published : String
  source : String
  category : String
  priority : String
  deriving DecidableEq, Repr

/-- Two-digit zero padding of a day/month/time component. -/
def pad2 (n : Int) : String :=
  if n < 10 then "0" ++ toString n else toString n

/-- Days-to-civil-date conversion (proleptic Gregorian, epoch 1970-01-01). -/
def civilFromDays (days : Int) : Int × Int × Int :=
  let z := days + 719468
  let era := z / 146097
  let doe := z - era * 146097
  let yoe := (doe - doe / 1460 + doe / 36524 - doe / 146096) / 365
  let y := yoe + era * 400
  let doy := doe - (365 * yoe + yoe / 4 - yoe / 100)
  let mp := (5 * doy + 2) / 153
  let d := doy - (153 * mp + 2) / 5 + 1
  let m := mp + (if mp < 10 then 3 else -9)
  (y + (if m ≤ 2 then 1 else 0), m, d)

/-- Renders `datetime.isoformat()` of an instant given as seconds since the epoch. -/
def isoformat (t : Int) : String :=
  let (y, m, d) := civilFromDays (t / 86400)
  let secs := t % 86400
  toString y ++ "-" ++ pad2 m ++ "-" ++ pad2 d ++ "T" ++
    pad2 (secs / 3600) ++ ":" ++ pad2 (secs % 3600 / 60) ++ ":" ++ pad2 (secs % 60)

/-- What `feedparser.parse(feed['url'])` did for one feed: raised, or
returned a result with a `bozo` flag, the `bozo_exception` text and the
entry list. -/
inductive ParseOutcome where
  | exc (msg : String)
  | parsed (bozo : Bool) (bozoMsg : String) (entries : List RawEntry)

/-- The entry dict built inside the loop of `fetch_single_feed`. -/
def mkEntry (feed : Feed) (e : RawEntry) (pub_date : Option Int) : Entry :=
  { title := e.title.getD "No title"
    link := e.link.getD ""
    summary :=
      let s := e.summary.getD ""
      if s.isEmpty then "" else s.take 300
    published :=
      match pub_date with
      | some t => isoformat t
      | none => "Unknown"
    source := feed.name
    category := feed.category
    priority := feed.priority }

/-- Embeds `fetch_single_feed` from `fetch_feeds.py`: returns
`(feed name, recent entries, error message or None)`.  A raised exception
or a bozo parse with no entries yields no entries and an error; otherwise
the first 10 entries are kept when undated or published after the cutoff. -/
def fetch_single_feed (feed : Feed) (outcome : ParseOutcome)
    (now : Int) (hours_back : Nat) : String × List Entry × Option String :=
  let cutoff := now - hours_back * 3600
  match outcome with
  | .exc msg => (feed.name, [], some msg)
  | .parsed bozo bozoMsg entries =>
    if bozo && entries.isEmpty then
      (feed.name, [], some ("Error: " ++ bozoMsg))
    else
      let kept := (entries.take 10).filterMap fun e =>
        let pub_date := e.published_parsed.orElse fun _ => e.updated_parsed
        let withinWindow :=
          match pub_date with
          | none => true
          | some t => decide (cutoff < t)
        if withinWindow then some (mkEntry feed e pub_date) else none
      (feed.name, kept, none)

/-- The result-collection loop of `fetch_all_feeds`: failed feeds add an
error line, successful feeds with entries extend the entry list, empty
successes add nothing; every result is processed. -/
def collectResults : List (String × List Entry × Option String) → List Entry × List String
  | [] => ([], [])
  | (name, entries, error) :: rest =>
    let (es, errs) := collectResults rest
    match error with
    | some msg => (es, ("  ✗ " ++ name ++ ": " ++ msg) :: errs)
    | none => if entries.isEmpty then (es, errs) else (entries ++ es, errs)

/-- The rank the `priority_order` dict assigns to a priority label, with
default 3 for unknown labels. -/
def priorityOrder (p : String) : Nat :=
  if p = "Critical" then 0 else if p = "High" then 1 else if p = "Medium" then 2 else 3

/-- Insert into a sorted list, before the first element that `a` may
precede: the insertion step of a stable sort. -/
def stableInsert (le : α → α → Bool) (a : α) : List α → List α
  | [] => [a]
  | b :: rest => if le a b then a :: b :: rest else b :: stableInsert le a rest

/-- Stable insertion sort; extensionally equal to Python `list.sort(key=…)`
for a total preorder, since stable sorting is unique. -/
def stableSortBy (le : α → α → Bool) (l : List α) : List α :=
  l.foldr (stableInsert le) []

/-- Code-point lexicographic `≤` on character lists: the string
comparison rule of Python. -/
def leChars : List Char → List Char → Bool
  | [], _ => true
  | _ :: _, [] => false
  | a :: as, b :: bs =>
    if a.val.toNat < b.val.toNat then true
    else if b.val.toNat < a.val.toNat then false
    else leChars as bs

/-- Python string `≤`, by code points. -/
def strLe (a b : String) : Bool := leChars a.data b.data

/-- The key order of the first sort:
the pair of priority rank and published string, compared
lexicographically. -/
def lePriorityDate (x y : Entry) : Bool :=
  priorityOrder x.priority < priorityOrder y.priority ||
    (priorityOrder x.priority = priorityOrder y.priority &&
      strLe x.published y.published)

/-- The key order of the second sort: the priority rank alone. -/
def lePriority (x y : Entry) : Bool :=
  priorityOrder x.priority ≤ priorityOrder y.priority

/-- The two successive sorts at the end of `fetch_all_feeds`. -/
def sortPhase (entries : List Entry) : List Entry :=
  stableSortBy lePriority (stableSortBy lePriorityDate entries)

/-- The filter `is_article_used` applied to the link of each fetched entry, as
`filter_unused_articles` does for the entry dicts of `fetch_all_feeds`. -/
def filterUnusedEntries (memory : Store) (entries : List Entry)
    (days_lookback : Nat) (now : Int) : List Entry :=
  entries.filter (fun e => !is_article_used memory e.link days_lookback now)

/-- Embeds `fetch_all_feeds` from `fetch_feeds.py` after the concurrent fetches:
collect the per-feed results in completion order, optionally filter used
articles, then apply the two sorts. -/
def fetch_all_feeds (results : List (String × List Entry × Option String))
    (memory : Store) (filter_used : Bool) (now : Int) : List Entry :=
  let (all_entries, _errors) := collectResults results
  let all_entries :=
    if filter_used then filterUnusedEntries memory all_entries 30 now else all_entries
  sortPhase all_entries

/-! ## Concrete instances used to witness the theorems -/

/-- A concrete post record. -/
def demoPost : PostRecord :=
  { id := "2025-01-01_post1"
    date := "2025-01-01"
    post_number := 1
    pillar := "Trade Corridors"
    article := { title := "Sample", url := "https://example.com/a", source := "Src" }
    hook := "A hook"
    content := "Body"
    image_path := none
    published := false
    created_at := 0
    published_at := none }

/-- A concrete store holding one post and one usage record. -/
def demoStore : Store :=
  { posts := [demoPost], articles_used := [("https://example.com/a", 1000)] }

/-- A concrete link-less article. -/
def demoArticle : Article :=
  { title := some "India signs FTA", summary := some "Trade at $180 billion", link := none }

/-- A concrete feed descriptor. -/
def demoFeed : Feed :=
  { name := "PIB", category := "Government", priority := "Critical", url := "https://example.com/rss" }

/-- A concrete raw entry published at the epoch. -/
def demoRawEntry : RawEntry :=
  { title := some "Old"
    link := some "l"
    summary := none
    published_parsed := some 0
    updated_parsed := none }

/-- A concrete high-priority entry published later. -/
def entryHighLate : Entry :=
  { title := "later", link := "l1", summary := "", published := "2025-01-02T00:00:00",
    source := "s", category := "c", priority := "High" }

/-- A concrete high-priority entry published earlier. -/
def entryHighEarly : Entry :=
  { title := "earlier", link := "l2", summary := "", published := "2025-01-01T00:00:00",
    source := "s", category := "c", priority := "High" }

/-! ## Theorems -/

/-- Helper: `lookupUsed` after `upsertUsed` at the same key finds the new
timestamp. -/
theorem lookupUsed_upsertUsed_self (url : String) (t : Int) :
    ∀ l : List (String × Int), lookupUsed url (upsertUsed url t l) = some t := by
  intro l
  induction l with
  | nil => simp [upsertUsed, lookupUsed]
  | cons p rest ih =>
    by_cases h : p.1 = url
    · simp [upsertUsed, h, lookupUsed]
    · simpa [upsertUsed, h, lookupUsed] using ih

/-- C3 (counterexample): a present-but-malformed store file does not load
as the empty store; the decode error propagates. -/
theorem load_memory_malformed_not_empty :
    _load_memory .malformed ≠ .ok emptyStore := by
  simp [_load_memory]

/-- C3 (amended): a missing store file loads as the empty store
`{posts: [], articles_used: {}}`, but a malformed store file is fatal: the
JSON decode error propagates out of `_load_memory`. -/
theorem load_memory_missing_empty_malformed_fatal :
    _load_memory .missing = .ok emptyStore ∧
    _load_memory .malformed = .error "JSONDecodeError" :=
  ⟨rfl, rfl⟩

/-- C4: `is_article_used` is true iff a usage record for the URL exists
with timestamp inside the lookback window, and after `record_post` for a
URL the article reads as used exactly until `days_lookback` days elapse —
in particular immediately. -/
theorem is_article_used_spec (memory : Store) (url : String) (d : Nat) (now : Int) :
    (is_article_used memory url d now = true ↔
      ∃ t, lookupUsed url memory.articles_used = some t ∧ now - d * 86400 < t) ∧
    ∀ (date : String) (pn : Nat) (pillar atitle asrc hook content : String)
      (img : Option String) (pub : Bool) (trec : Int),
      (∀ now', is_article_used
          (record_post memory date pn pillar atitle url asrc hook content img pub trec).1
          url d now' = true ↔ now' - trec < d * 86400) ∧
      (0 < d → is_article_used
          (record_post memory date pn pillar atitle url asrc hook content img pub trec).1
          url d trec = true) := by
  constructor
  · unfold is_article_used
    cases h : lookupUsed url memory.articles_used with
    | none => simp [h]
    | some t => simp [h]
  · intro date pn pillar atitle asrc hook content img pub trec
    have hup : lookupUsed url
        (record_post memory date pn pillar atitle url asrc hook content img pub trec).1.articles_used
        = some trec := by
      simp [record_post, lookupUsed_upsertUsed_self]
    constructor
    · intro now'
      unfold is_article_used
      rw [hup]
      simp
      omega
    · intro hd
      unfold is_article_used
      rw [hup]
      simp
      omega

/-- C4 witness: recording a post for a concrete URL makes it read as used
immediately with the default 30-day lookback. -/
theorem is_article_used_spec_witness :
    (0 : Nat) < 30 ∧
    is_article_used
      (record_post demoStore "2025-01-02" 2 "Trade" "T" "https://example.com/b" "S"
        "H" "C" none false 5000).1
      "https://example.com/b" 30 5000 = true :=
  ⟨by decide,
   ((is_article_used_spec demoStore "https://example.com/b" 30 5000).2
      "2025-01-02" 2 "Trade" "T" "S" "H" "C" none false 5000).2 (by decide)⟩

/-- Helper: `markFirst` returns `none` exactly when no record has the id. -/
theorem markFirst_eq_none_iff (pid : String) (now : Int) :
    ∀ posts : List PostRecord,
      markFirst pid now posts = none ↔ ∀ p ∈ posts, p.id ≠ pid := by
  intro posts
  induction posts with
  | nil => simp [markFirst]
  | cons p rest ih =>
    by_cases h : p.id = pid
    · simp [markFirst, h]
    · simp [markFirst, h, ih]

/-- Helper: when some record has the id, `markFirst` succeeds and its
output contains a record with that id, published, stamped at `now`. -/
theorem markFirst_some_spec (pid : String) (now : Int) :
    ∀ posts : List PostRecord, (∃ p ∈ posts, p.id = pid) →
      ∃ ps, markFirst pid now posts = some ps ∧
        ∃ q ∈ ps, q.id = pid ∧ q.published = true ∧ q.published_at = some now := by
  intro posts
  induction posts with
  | nil => rintro ⟨p, hp, _⟩; cases hp
  | cons p rest ih =>
    rintro ⟨q, hq, hqid⟩
    by_cases h : p.id = pid
    · refine ⟨{ p with published := true, published_at := some now } :: rest,
        by simp [markFirst, h], ?_⟩
      exact ⟨{ p with published := true, published_at := some now },
        List.mem_cons_self _ _, h, rfl, rfl⟩
    · have hqrest : q ∈ rest := by
        rcases List.mem_cons.mp hq with rfl | hmem
        · exact absurd hqid h
        · exact hmem
      obtain ⟨ps, hps, r, hr, hrid, hrpub, hrat⟩ := ih ⟨q, hqrest, hqid⟩
      exact ⟨p :: ps, by simp [markFirst, h, hps],
        r, List.mem_cons_of_mem _ hr, hrid, hrpub, hrat⟩

/-- C5: `mark_published` on an absent id returns `false` and leaves the
store completely unchanged; on a present id it returns `true`, keeps the
usage map intact, and the saved store contains a record with that id whose
`published` flag is set and whose `published_at` is the current instant. -/
theorem mark_published_spec (memory : Store) (pid : String) (now : Int) :
    ((∀ p ∈ memory.posts, p.id ≠ pid) → mark_published memory pid now = (memory, false)) ∧
    ((∃ p ∈ memory.posts, p.id = pid) →
      (mark_published memory pid now).2 = true ∧
      (mark_published memory pid now).1.articles_used = memory.articles_used ∧
      ∃ q ∈ (mark_published memory pid now).1.posts,
        q.id = pid ∧ q.published = true ∧ q.published_at = some now) := by
  constructor
  · intro habs
    have : markFirst pid now memory.posts = none :=
      (markFirst_eq_none_iff pid now memory.posts).mpr habs
    simp [mark_published, this]
  · intro hex
    obtain ⟨ps, hps, q, hq, hqid, hqpub, hqat⟩ :=
      markFirst_some_spec pid now memory.posts hex
    refine ⟨by simp [mark_published, hps], by simp [mark_published, hps], ?_⟩
    exact ⟨q, by simpa [mark_published, hps] using hq, hqid, hqpub, hqat⟩

/-- C5 witness: on the concrete store, a nonexistent id is reported
not-found with the store unchanged, and the existing id is marked
published. -/
theorem mark_published_spec_witness :
    mark_published demoStore "2025-01-01_post9" 7 = (demoStore, false) ∧
    (mark_published demoStore "2025-01-01_post1" 7).2 = true :=
  ⟨(mark_published_spec demoStore "2025-01-01_post9" 7).1 (by decide),
   ((mark_published_spec demoStore "2025-01-01_post1" 7).2
      ⟨demoPost, by simp [demoStore], by decide⟩).1⟩

/-- C10: an article whose `link` is absent or empty is kept by
`filter_unused_articles` exactly when the empty URL has no in-window usage
record; in particular it is never filtered while `articles_used` has no
entry for the empty URL. -/
theorem filter_unused_linkless_spec (memory : Store) (articles : List Article)
    (d : Nat) (now : Int) (a : Article) (h : a.link.getD "" = "") :
    (a ∈ filter_unused_articles memory articles d now ↔
      a ∈ articles ∧ is_article_used memory "" d now = false) ∧
    (lookupUsed "" memory.articles_used = none →
      is_article_used memory "" d now = false) := by
  constructor
  · unfold filter_unused_articles
    rw [List.mem_filter]
    rw [h]
    simp
  · intro hnone
    unfold is_article_used
    rw [hnone]

/-- C10 witness: the concrete link-less article is kept on a store with no
empty-URL usage record. -/
theorem filter_unused_linkless_spec_witness :
    (demoArticle ∈ filter_unused_articles demoStore [demoArticle] 30 0 ↔
      demoArticle ∈ [demoArticle] ∧ is_article_used demoStore "" 30 0 = false) ∧
    (lookupUsed "" demoStore.articles_used = none →
      is_article_used demoStore "" 30 0 = false) :=
  filter_unused_linkless_spec demoStore [demoArticle] 30 0 demoArticle (by decide)

/-- Helper: the selection loop always yields one tuple per iteration. -/
theorem selectLoop_length (articles : List Article) (choice : Nat → Nat) :
    ∀ (n i : Nat) (used : List AngleKey),
      (selectLoop articles choice n i used).length = n := by
  intro n
  induction n with
  | zero => intro i used; rfl
  | succ n ih => intro i used; simp [selectLoop, ih]

/-- C6: `select_angles_for_posts` raises the documented `ValueError` when
fewer articles than posts are supplied, and with exactly enough articles
succeeds with exactly `num_posts` tuples. -/
theorem select_angles_boundary (articles : List Article) (choice : Nat → Nat)
    (num_posts : Nat) :
    (articles.length < num_posts →
      select_angles_for_posts articles choice num_posts =
        .error ("Need at least " ++ toString num_posts ++ " articles")) ∧
    (articles.length = num_posts →
      ∃ r, select_angles_for_posts articles choice num_posts = .ok r ∧
        r.length = num_posts) := by
  constructor
  · intro h
    simp [select_angles_for_posts, h]
  · intro h
    refine ⟨selectLoop articles choice num_posts 0 [], ?_,
      selectLoop_length articles choice num_posts 0 []⟩
    simp [select_angles_for_posts, h]

/-- C6 witness: zero articles for one post fail; one article for one post
succeeds with one tuple. -/
theorem select_angles_boundary_witness :
    ([] : List Article).length < 1 ∧
    select_angles_for_posts [] (fun _ => 0) 1 =
      .error ("Need at least " ++ toString 1 ++ " articles") ∧
    ∃ r, select_angles_for_posts [demoArticle] (fun _ => 0) 1 = .ok r ∧
      r.length = 1 :=
  ⟨by decide,
   (select_angles_boundary [] (fun _ => 0) 1).1 (by decide),
   (select_angles_boundary [demoArticle] (fun _ => 0) 1).2 rfl⟩

/-- C7: the angle score is the count of matching trigger keywords times
the weight of the angle, plus the half-point numeric-pattern bonus for
`data_bomb` only, and it is never negative.  (Determinism holds because
the embedding is a pure function of the article text.) -/
theorem score_article_formula_nonneg (article : Article) (k : AngleKey) :
    score_article_for_angle article k =
      (triggerMatches k (scoringText article) : ℚ) * (ANGLES k).weight +
        (if k = .data_bomb then (countNumbers (scoringText article) : ℚ) * (5/10) else 0) ∧
    0 ≤ score_article_for_angle article k := by
  have hw : 0 ≤ (ANGLES k).weight := by
    cases k <;> norm_num [ANGLES]
  constructor
  · by_cases h : k = .data_bomb <;> simp [score_article_for_angle, h]
  · by_cases h : k = .data_bomb
    · have h1 : (0 : ℚ) ≤ (triggerMatches k (scoringText article) : ℚ) * (ANGLES k).weight :=
        mul_nonneg (Nat.cast_nonneg _) hw
      have h2 : (0 : ℚ) ≤ (countNumbers (scoringText article) : ℚ) * (5/10) :=
        mul_nonneg (Nat.cast_nonneg _) (by norm_num)
      calc (0 : ℚ) ≤ (triggerMatches k (scoringText article) : ℚ) * (ANGLES k).weight +
          (countNumbers (scoringText article) : ℚ) * (5/10) := add_nonneg h1 h2
        _ = score_article_for_angle article k := by simp [score_article_for_angle, h]
    · calc (0 : ℚ) ≤ (triggerMatches k (scoringText article) : ℚ) * (ANGLES k).weight :=
        mul_nonneg (Nat.cast_nonneg _) hw
        _ = score_article_for_angle article k := by simp [score_article_for_angle, h]

/-- C8: a raised fetch and a bozo parse with no entries each contribute
zero entries plus an error message; a successful parse whose entries all
fall outside the lookback window contributes zero entries and no error;
and the collection loop processes every per-feed result independently
(entries and errors of the whole batch decompose pointwise, so no failure
aborts it). -/
theorem feed_failure_isolated :
    (∀ (feed : Feed) (msg : String) (now : Int) (hb : Nat),
      fetch_single_feed feed (.exc msg) now hb = (feed.name, [], some msg)) ∧
    (∀ (feed : Feed) (bmsg : String) (now : Int) (hb : Nat),
      fetch_single_feed feed (.parsed true bmsg []) now hb =
        (feed.name, [], some ("Error: " ++ bmsg))) ∧
    (∀ (feed : Feed) (bozo : Bool) (bmsg : String) (entries : List RawEntry)
      (now : Int) (hb : Nat),
      ¬(bozo = true ∧ entries = []) →
      (∀ e ∈ entries.take 10, ∃ t,
        (e.published_parsed.orElse fun _ => e.updated_parsed) = some t ∧
          t ≤ now - hb * 3600) →
      fetch_single_feed feed (.parsed bozo bmsg entries) now hb =
        (feed.name, [], none)) ∧
    (∀ results : List (String × List Entry × Option String),
      (collectResults results).1 =
        (results.map (fun r => if r.2.2.isSome then [] else r.2.1)).flatten ∧
      (collectResults results).2 =
        results.filterMap (fun r => r.2.2.map (fun m => "  ✗ " ++ r.1 ++ ": " ++ m))) := by
  refine ⟨fun feed msg now hb => rfl, fun feed bmsg now hb => rfl, ?_, ?_⟩
  · intro feed bozo bmsg entries now hb hnotbozo hout
    have hcond : (bozo && entries.isEmpty) = false := by
      cases bozo
      · rfl
      · cases entries with
        | nil => exact absurd ⟨rfl, rfl⟩ hnotbozo
        | cons e es => rfl
    have hkept : ((entries.take 10).filterMap fun e =>
        let pub_date := e.published_parsed.orElse fun _ => e.updated_parsed
        let withinWindow :=
          match pub_date with
          | none => true
          | some t => decide (now - hb * 3600 < t)
        if withinWindow then some (mkEntry feed e pub_date) else none) = [] := by
      rw [List.filterMap_eq_nil_iff]
      intro e he
      obtain ⟨t, hpub, ht⟩ := hout e he
      simp only [hpub]
      have : ¬ (now - hb * 3600 < t) := not_lt.mpr ht
      simp [this]
    simp [fetch_single_feed, hcond, hkept]
  · intro results
    induction results with
    | nil => exact ⟨rfl, rfl⟩
    | cons r rest ih =>
      obtain ⟨name, entries, error⟩ := r
      cases error with
      | some msg => simpa [collectResults] using ih
      | none =>
        cases entries with
        | nil => simpa [collectResults] using ih
        | cons e es => simpa [collectResults] using ih

/-- C8 witness: a concrete failing feed, a concrete bozo feed, a concrete
out-of-window feed, and a concrete two-result batch. -/
theorem feed_failure_isolated_witness :
    fetch_single_feed demoFeed (.exc "timeout") 86400 24 =
      (demoFeed.name, [], some "timeout") ∧
    fetch_single_feed demoFeed (.parsed true "bad xml" []) 86400 24 =
      (demoFeed.name, [], some ("Error: " ++ "bad xml")) ∧
    fetch_single_feed demoFeed (.parsed false "" [demoRawEntry]) 86400 24 =
      (demoFeed.name, [], none) := by
  refine ⟨feed_failure_isolated.1 demoFeed "timeout" 86400 24,
    feed_failure_isolated.2.1 demoFeed "bad xml" 86400 24,
    feed_failure_isolated.2.2.1 demoFeed false "" [demoRawEntry] 86400 24
      (by simp) ?_⟩
  intro e he
  refine ⟨0, ?_, by norm_num⟩
  have he' : e = demoRawEntry := by simpa using he
  rw [he']
  rfl

/-! ### Stable-sort lemmas for the double sort of `fetch_all_feeds` -/

/-- Helper: membership after a stable insertion. -/
theorem mem_stableInsert (le : α → α → Bool) (a : α) :
    ∀ (l : List α) (x : α), x ∈ stableInsert le a l → x = a ∨ x ∈ l := by
  intro l
  induction l with
  | nil => intro x hx; simpa [stableInsert] using hx
  | cons b rest ih =>
    intro x hx
    by_cases h : le a b
    · rw [stableInsert, if_pos h] at hx
      rcases List.mem_cons.mp hx with rfl | hx
      · exact Or.inl rfl
      · exact Or.inr hx
    · rw [stableInsert, if_neg h] at hx
      rcases List.mem_cons.mp hx with rfl | hx
      · exact Or.inr (List.mem_cons_self _ _)
      · rcases ih x hx with rfl | hx
        · exact Or.inl rfl
        · exact Or.inr (List.mem_cons_of_mem _ hx)

/-- Helper: stable insertion preserves sortedness for a total transitive
comparator. -/
theorem pairwise_stableInsert (le : α → α → Bool)
    (htot : ∀ a b, le a b = true ∨ le b a = true)
    (htrans : ∀ a b c, le a b = true → le b c = true → le a c = true)
    (a : α) :
    ∀ l : List α, l.Pairwise (fun x y => le x y = true) →
      (stableInsert le a l).Pairwise (fun x y => le x y = true) := by
  intro l
  induction l with
  | nil => intro _; simp [stableInsert]
  | cons b rest ih =>
    intro hl
    obtain ⟨hb, hrest⟩ := List.pairwise_cons.mp hl
    by_cases h : le a b = true
    · rw [stableInsert, if_pos h]
      refine List.pairwise_cons.mpr ⟨?_, hl⟩
      intro x hx
      rcases List.mem_cons.mp hx with rfl | hx
      · exact h
      · exact htrans a b x h (hb x hx)
    · rw [stableInsert, if_neg h]
      have hba : le b a = true := (htot a b).resolve_left h
      refine List.pairwise_cons.mpr ⟨?_, ih hrest⟩
      intro x hx
      rcases mem_stableInsert le a rest x hx with rfl | hx
      · exact hba
      · exact hb x hx

/-- Helper: the stable sort is sorted for a total transitive comparator. -/
theorem pairwise_stableSortBy (le : α → α → Bool)
    (htot : ∀ a b, le a b = true ∨ le b a = true)
    (htrans : ∀ a b c, le a b = true → le b c = true → le a c = true)
    (l : List α) :
    (stableSortBy le l).Pairwise (fun x y => le x y = true) := by
  induction l with
  | nil => simp [stableSortBy]
  | cons a rest ih =>
    exact pairwise_stableInsert le htot htrans a _ ih

/-- Helper: a stable sort leaves an already sorted list unchanged. -/
theorem stableSortBy_eq_self_of_pairwise (le : α → α → Bool) :
    ∀ l : List α, l.Pairwise (fun x y => le x y = true) →
      stableSortBy le l = l := by
  intro l
  induction l with
  | nil => intro _; rfl
  | cons a rest ih =>
    intro hl
    obtain ⟨ha, hrest⟩ := List.pairwise_cons.mp hl
    have : stableSortBy le (a :: rest) = stableInsert le a (stableSortBy le rest) := rfl
    rw [this, ih hrest]
    cases rest with
    | nil => rfl
    | cons b t =>
      rw [stableInsert, if_pos (ha b (List.mem_cons_self _ _))]

/-- Helper: code-point lexicographic `≤` is total. -/
theorem leChars_total : ∀ s t : List Char, leChars s t = true ∨ leChars t s = true := by
  intro s
  induction s with
  | nil => intro t; left; rfl
  | cons a as ih =>
    intro t
    cases t with
    | nil => right; rfl
    | cons b bs =>
      by_cases hab : a.val.toNat < b.val.toNat
      · left; simp [leChars, hab]
      · by_cases hba : b.val.toNat < a.val.toNat
        · right; simp [leChars, hba]
        · rcases ih bs with h | h
          · left; simp [leChars, hab, hba, h]
          · right; simp [leChars, hab, hba, h]

/-- Helper: code-point lexicographic `≤` is transitive. -/
theorem leChars_trans : ∀ s t u : List Char,
    leChars s t = true → leChars t u = true → leChars s u = true := by
  intro s
  induction s with
  | nil => intro t u _ _; rfl
  | cons a as ih =>
    intro t u hst htu
    cases t with
    | nil => simp [leChars] at hst
    | cons b bs =>
      cases u with
      | nil => simp [leChars] at htu
      | cons c cs =>
        by_cases hab : a.val.toNat < b.val.toNat
        · by_cases hbc : b.val.toNat < c.val.toNat
          · simp [leChars, Nat.lt_trans hab hbc]
          · by_cases hcb : c.val.toNat < b.val.toNat
            · simp [leChars, hbc, hcb] at htu
            · have hbceq : b.val.toNat = c.val.toNat := by omega
              simp [leChars, hbceq ▸ hab]
        · by_cases hba : b.val.toNat < a.val.toNat
          · simp [leChars, hab, hba] at hst
          · have habeq : a.val.toNat = b.val.toNat := by omega
            by_cases hbc : b.val.toNat < c.val.toNat
            · simp [leChars, habeq ▸ hbc]
            · by_cases hcb : c.val.toNat < b.val.toNat
              · simp [leChars, hbc, hcb] at htu
              · have hac : ¬ a.val.toNat < c.val.toNat := by omega
                have hca : ¬ c.val.toNat < a.val.toNat := by omega
                simp [leChars, hab, hba] at hst
                simp [leChars, hbc, hcb] at htu
                simp [leChars, hac, hca, ih bs cs hst htu]

/-- Helper: the priority-and-date order is total. -/
theorem lePriorityDate_total (x y : Entry) :
    lePriorityDate x y = true ∨ lePriorityDate y x = true := by
  unfold lePriorityDate
  rcases Nat.lt_trichotomy (priorityOrder x.priority) (priorityOrder y.priority) with h | h | h
  · left; simp [h]
  · rcases leChars_total x.published.data y.published.data with hs | hs
    · left; simp [h, strLe, hs]
    · right; simp [h.symm, strLe, hs]
  · right; simp [h]

/-- Helper: the priority-and-date order is transitive. -/
theorem lePriorityDate_trans (x y z : Entry) :
    lePriorityDate x y = true → lePriorityDate y z = true →
      lePriorityDate x z = true := by
  unfold lePriorityDate
  intro hxy hyz
  simp only [Bool.or_eq_true, Bool.and_eq_true, decide_eq_true_eq] at hxy hyz ⊢
  rcases hxy with h1 | ⟨h1, h1s⟩ <;> rcases hyz with h2 | ⟨h2, h2s⟩
  · exact Or.inl (Nat.lt_trans h1 h2)
  · exact Or.inl (h2 ▸ h1)
  · exact Or.inl (h1 ▸ h2)
  · exact Or.inr ⟨h1.trans h2, leChars_trans _ _ _ h1s h2s⟩

/-- Helper: the priority-and-date order refines the priority-only order. -/
theorem lePriorityDate_imp_lePriority (x y : Entry) :
    lePriorityDate x y = true → lePriority x y = true := by
  unfold lePriorityDate lePriority
  intro h
  simp only [Bool.or_eq_true, Bool.and_eq_true, decide_eq_true_eq] at h ⊢
  rcases h with h | ⟨h, _⟩
  · exact Nat.le_of_lt h
  · exact Nat.le_of_eq h

/-- C2 (counterexample): on two same-priority entries given in
reverse-date order, the double sort orders them by date while a single
stable priority-only sort leaves them in input order, so the two are not
equivalent and the date ordering is not discarded. -/
theorem sortPhase_counterexample :
    sortPhase [entryHighLate, entryHighEarly] = [entryHighEarly, entryHighLate] ∧
    stableSortBy lePriority [entryHighLate, entryHighEarly] =
      [entryHighLate, entryHighEarly] ∧
    sortPhase [entryHighLate, entryHighEarly] ≠
      stableSortBy lePriority [entryHighLate, entryHighEarly] := by
  refine ⟨by decide, by decide, by decide⟩

/-- C2 (amended): because the Python sort is stable, the second sort (by
priority alone) is the identity on the already-sorted output of the first,
so the two successive sorts are equivalent to the single first sort: the
net ordering is by priority and then by published date, with the date
ordering within equal-priority groups preserved. -/
theorem sortPhase_eq_priority_date_sort (entries : List Entry) :
    sortPhase entries = stableSortBy lePriorityDate entries := by
  unfold sortPhase
  apply stableSortBy_eq_self_of_pairwise
  have hpd := pairwise_stableSortBy lePriorityDate
    lePriorityDate_total lePriorityDate_trans entries
  exact hpd.imp (fun h => lePriorityDate_imp_lePriority _ _ h)

/-! ### Lemmas about angle selection -/

/-- Helper: every angle weight is nonnegative. -/
theorem weight_nonneg (k : AngleKey) : 0 ≤ (ANGLES k).weight := by
  cases k <;> norm_num [ANGLES]

/-- Helper: every angle score is nonnegative. -/
theorem score_article_nonneg (article : Article) (k : AngleKey) :
    0 ≤ score_article_for_angle article k := by
  have h1 : (0 : ℚ) ≤ (triggerMatches k (scoringText article) : ℚ) * (ANGLES k).weight :=
    mul_nonneg (Nat.cast_nonneg _) (weight_nonneg k)
  have h2 : (0 : ℚ) ≤ (countNumbers (scoringText article) : ℚ) * (5/10) :=
    mul_nonneg (Nat.cast_nonneg _) (by norm_num)
  by_cases h : k = .data_bomb
  · calc (0 : ℚ) ≤ (triggerMatches k (scoringText article) : ℚ) * (ANGLES k).weight +
        (countNumbers (scoringText article) : ℚ) * (5/10) := add_nonneg h1 h2
      _ = score_article_for_angle article k := by simp [score_article_for_angle, h]
  · calc (0 : ℚ) ≤ (triggerMatches k (scoringText article) : ℚ) * (ANGLES k).weight := h1
      _ = score_article_for_angle article k := by simp [score_article_for_angle, h]

/-- Helper: the candidate score dict is never empty (the reset branch
rebuilds it over the whole catalog). -/
theorem candidateScores_ne_nil (article : Article) (used : List AngleKey) :
    candidateScores article used ≠ [] := by
  unfold candidateScores
  by_cases h : ((angleKeys.filter (fun k => !used.contains k)).map
      (fun k => (k, score_article_for_angle article k))).isEmpty
  · simp only [h, if_true]
    simp [angleKeys]
  · simp only [h, if_false]
    simpa using h

/-- Helper: every candidate score is the score of its key. -/
theorem candidateScores_val (article : Article) (used : List AngleKey) :
    ∀ p ∈ candidateScores article used, p.2 = score_article_for_angle article p.1 := by
  intro p hp
  unfold candidateScores at hp
  by_cases h : ((angleKeys.filter (fun k => !used.contains k)).map
      (fun k => (k, score_article_for_angle article k))).isEmpty
  · simp only [h, if_true] at hp
    obtain ⟨k, _, rfl⟩ := List.mem_map.mp hp
    rfl
  · simp only [h, if_false] at hp
    obtain ⟨k, _, rfl⟩ := List.mem_map.mp hp
    rfl

/-- Helper: `foldl max` returns its seed or a list value. -/
theorem foldl_max_choice :
    ∀ (t : List (AngleKey × ℚ)) (b : ℚ),
      t.foldl (fun m q => max m q.2) b = b ∨
        ∃ q ∈ t, t.foldl (fun m q => max m q.2) b = q.2 := by
  intro t
  induction t with
  | nil => intro b; left; rfl
  | cons q rest ih =>
    intro b
    rcases ih (max b q.2) with h | ⟨r, hr, h⟩
    · rcases max_choice b q.2 with hm | hm
      · left
        rw [List.foldl_cons, h, hm]
      · right
        exact ⟨q, List.mem_cons_self _ _, by rw [List.foldl_cons, h, hm]⟩
    · right
      exact ⟨r, List.mem_cons_of_mem _ hr, by rw [List.foldl_cons, h]⟩

/-- Helper: a nonempty candidate dict attains its maximum. -/
theorem maxScore_attained :
    ∀ l : List (AngleKey × ℚ), l ≠ [] → ∃ p ∈ l, p.2 = maxScore l := by
  intro l hne
  cases l with
  | nil => exact absurd rfl hne
  | cons p rest =>
    rcases foldl_max_choice rest p.2 with h | ⟨q, hq, h⟩
    · exact ⟨p, List.mem_cons_self _ _, h.symm⟩
    · exact ⟨q, List.mem_cons_of_mem _ hq, h.symm⟩

/-- Helper: the 80%-of-max shortlist is never empty. -/
theorem topAngles_ne_nil (article : Article) (used : List AngleKey) :
    topAngles article used ≠ [] := by
  obtain ⟨p, hp, hpmax⟩ :=
    maxScore_attained (candidateScores article used) (candidateScores_ne_nil article used)
  have hnn : 0 ≤ p.2 := by
    rw [candidateScores_val article used p hp]
    exact score_article_nonneg article p.1
  have hthr : maxScore (candidateScores article used) * (8/10) ≤ p.2 := by
    rw [← hpmax]
    calc p.2 * (8/10) ≤ p.2 * 1 := by
          exact mul_le_mul_of_nonneg_left (by norm_num) hnn
      _ = p.2 := mul_one _
  have hmem : p.1 ∈ topAngles article used := by
    unfold topAngles
    exact List.mem_map_of_mem _ (List.mem_filter.mpr ⟨hp, by simpa using hthr⟩)
  exact List.ne_nil_of_mem hmem

/-- Helper: the randomly chosen angle belongs to the shortlist. -/
theorem selectedAngle_mem_topAngles (article : Article) (used : List AngleKey) (r : Nat) :
    selectedAngle article used r ∈ topAngles article used := by
  have hne := topAngles_ne_nil article used
  have hpos : 0 < (topAngles article used).length := List.length_pos.mpr hne
  have hlt : r % (topAngles article used).length < (topAngles article used).length :=
    Nat.mod_lt _ hpos
  simp only [selectedAngle]
  rw [List.getD_eq_getElem?_getD, List.getElem?_eq_getElem hlt]
  exact List.getElem_mem hlt

/-- Helper: while some catalog angle is still unused, the chosen angle is
itself unused (the diversity filter excludes used angles). -/
theorem selectedAngle_not_mem (article : Article) (used : List AngleKey) (r : Nat)
    (hmiss : ∃ k ∈ angleKeys, k ∉ used) :
    selectedAngle article used r ∉ used := by
  obtain ⟨k₀, hk₀, hk₀nm⟩ := hmiss
  have hk₀f : k₀ ∈ angleKeys.filter (fun k => !used.contains k) :=
    List.mem_filter.mpr ⟨hk₀, by simpa using hk₀nm⟩
  have hfilne : angleKeys.filter (fun k => !used.contains k) ≠ [] :=
    List.ne_nil_of_mem hk₀f
  have hmapne : ((angleKeys.filter (fun k => !used.contains k)).map
      (fun k => (k, score_article_for_angle article k))).isEmpty = false := by
    simp only [List.isEmpty_eq_false, ne_eq, List.map_eq_nil_iff]
    exact hfilne
  have hcs : candidateScores article used =
      (angleKeys.filter (fun k => !used.contains k)).map
        (fun k => (k, score_article_for_angle article k)) := by
    simp only [candidateScores, hmapne]
    rfl
  have hsel := selectedAngle_mem_topAngles article used r
  unfold topAngles at hsel
  obtain ⟨p, hpf, hpk⟩ := List.mem_map.mp hsel
  have hpcs : p ∈ candidateScores article used := (List.mem_filter.mp hpf).1
  rw [hcs] at hpcs
  obtain ⟨k, hkf, rfl⟩ := List.mem_map.mp hpcs
  have : !used.contains k := (List.mem_filter.mp hkf).2
  rw [← hpk]
  simpa using this

/-- Helper: a used set smaller than the catalog misses some catalog
angle. -/
theorem exists_missing_angle (used : List AngleKey) (hlen : used.length < 6) :
    ∃ k ∈ angleKeys, k ∉ used := by
  by_contra h
  push_neg at h
  have hsub : angleKeys ⊆ used := fun k hk => h k hk
  have hnodup : angleKeys.Nodup := by decide
  have hle : angleKeys.length ≤ used.length :=
    (hnodup.subperm hsub).length_le
  simp [angleKeys] at hle
  omega

/-- Helper: the loop invariant for angle diversity — as long as the used
set is duplicate-free, the first `6 - used.length` selected angles
together with the used set stay duplicate-free. -/
theorem selectLoop_take_nodup (articles : List Article) (choice : Nat → Nat) :
    ∀ (n i : Nat) (used : List AngleKey), used.Nodup →
      ((((selectLoop articles choice n i used).map (fun t => t.2.1)).take
          (6 - used.length)) ++ used).Nodup := by
  intro n
  induction n with
  | zero =>
    intro i used hn
    simpa [selectLoop] using hn
  | succ n ih =>
    intro i used hn
    by_cases hlen : used.length < 6
    · have hmiss := exists_missing_angle used hlen
      have hknot : selectedAngle (articles.getD i default) used (choice i) ∉ used :=
        selectedAngle_not_mem _ _ _ hmiss
      have hused' : (selectedAngle (articles.getD i default) used (choice i) :: used).Nodup :=
        List.nodup_cons.mpr ⟨hknot, hn⟩
      have ih' := ih (i + 1) _ hused'
      have harith : 6 - used.length = (6 - (used.length + 1)) + 1 := by omega
      simp only [selectLoop, List.map_cons, harith, List.take_succ_cons, List.cons_append]
      have hperm : ((((selectLoop articles choice n (i + 1)
            (selectedAngle (articles.getD i default) used (choice i) :: used)).map
              (fun t => t.2.1)).take (6 - (used.length + 1))) ++
            (selectedAngle (articles.getD i default) used (choice i) :: used)).Perm
          (selectedAngle (articles.getD i default) used (choice i) ::
            ((((selectLoop articles choice n (i + 1)
              (selectedAngle (articles.getD i default) used (choice i) :: used)).map
                (fun t => t.2.1)).take (6 - (used.length + 1))) ++ used)) :=
        List.perm_middle
      have := hperm.nodup_iff
      simp only [List.length_cons] at ih'
      exact this.mp ih'
    · have h0 : 6 - used.length = 0 := by omega
      rw [h0, List.take_zero, List.nil_append]
      exact hn

/-- C1: with at least as many articles as posts, selection succeeds and no
angle repeats among the first `min(num_posts, 6)` assigned angles — any
repetition can only occur after the six-angle catalog is exhausted.  Holds
for every outcome of the random tie-break. -/
theorem select_angles_diversity (articles : List Article) (choice : Nat → Nat)
    (num_posts : Nat) (h : num_posts ≤ articles.length) :
    ∃ r, select_angles_for_posts articles choice num_posts = .ok r ∧
      r.length = num_posts ∧ ((r.map (fun t => t.2.1)).take 6).Nodup := by
  refine ⟨selectLoop articles choice num_posts 0 [],
    by simp [select_angles_for_posts, Nat.not_lt.mpr h],
    selectLoop_length articles choice num_posts 0 [], ?_⟩
  have hmain := selectLoop_take_nodup articles choice num_posts 0 [] List.nodup_nil
  simpa using hmain

/-- C1 witness: three identical articles for three posts select three
pairwise distinct angles under the constant-zero tie-break. -/
theorem select_angles_diversity_witness :
    (3 : Nat) ≤ [demoArticle, demoArticle, demoArticle].length ∧
    ∃ r, select_angles_for_posts [demoArticle, demoArticle, demoArticle]
        (fun _ => 0) 3 = .ok r ∧
      r.length = 3 ∧ ((r.map (fun t => t.2.1)).take 6).Nodup :=
  ⟨by decide,
   select_angles_diversity [demoArticle, demoArticle, demoArticle]
     (fun _ => 0) 3 (by decide)⟩

/-- Helper: the selection loop reads only the article positions it
visits. -/
theorem selectLoop_congr (articles₁ articles₂ : List Article) (choice : Nat → Nat) :
    ∀ (n i : Nat) (used : List AngleKey),
      (∀ j, i ≤ j → j < i + n → articles₁.getD j default = articles₂.getD j default) →
      selectLoop articles₁ choice n i used = selectLoop articles₂ choice n i used := by
  intro n
  induction n with
  | zero => intro i used _; rfl
  | succ n ih =>
    intro i used hagree
    have hi : articles₁.getD i default = articles₂.getD i default :=
      hagree i le_rfl (by omega)
    simp only [selectLoop]
    rw [hi, ih (i + 1) _ (fun j hj1 hj2 => hagree j (by omega) (by omega))]

/-- Helper: lists agreeing on their first `m` positions agree at every
index below `m` under `getD`. -/
theorem getD_eq_of_take_eq (l₁ l₂ : List α) (m j : Nat) (d : α)
    (h : l₁.take m = l₂.take m) (hj : j < m) : l₁.getD j d = l₂.getD j d := by
  have hq : l₁[j]? = l₂[j]? := by
    rw [← List.getElem?_take_of_lt (l := l₁) hj, h, List.getElem?_take_of_lt hj]
  rw [List.getD_eq_getElem?_getD, List.getD_eq_getElem?_getD, hq]

/-- Helper: the articles paired by the loop are exactly the visited slice
of the input list. -/
theorem selectLoop_map_fst (articles : List Article) (choice : Nat → Nat) :
    ∀ (n i : Nat) (used : List AngleKey), i + n ≤ articles.length →
      (selectLoop articles choice n i used).map (fun t => t.1) =
        (articles.drop i).take n := by
  intro n
  induction n with
  | zero => intro i used _; simp [selectLoop]
  | succ n ih =>
    intro i used h
    have hi : i < articles.length := by omega
    simp only [selectLoop, List.map_cons]
    rw [ih (i + 1) _ (by omega), List.drop_eq_getElem_cons hi, List.take_succ_cons]
    congr 1
    rw [List.getD_eq_getElem?_getD, List.getElem?_eq_getElem hi]
    rfl

/-- C9: the selection depends only on the first `num_posts` articles — two
inputs agreeing there produce identical outputs for every tie-break — and
the i-th returned tuple pairs exactly the i-th input article. -/
theorem select_angles_prefix_spec (articles₁ articles₂ : List Article)
    (choice : Nat → Nat) (num_posts : Nat)
    (h₁ : num_posts ≤ articles₁.length)
    (htake : articles₁.take num_posts = articles₂.take num_posts) :
    select_angles_for_posts articles₁ choice num_posts =
      select_angles_for_posts articles₂ choice num_posts ∧
    ∃ r, select_angles_for_posts articles₁ choice num_posts = .ok r ∧
      r.map (fun t => t.1) = articles₁.take num_posts := by
  have h₂ : num_posts ≤ articles₂.length := by
    by_contra hc
    push_neg at hc
    have hlen := congrArg List.length htake
    rw [List.length_take, List.length_take] at hlen
    have e1 : min num_posts articles₁.length = num_posts := Nat.min_eq_left h₁
    have e2 : min num_posts articles₂.length = articles₂.length :=
      Nat.min_eq_right (le_of_lt hc)
    omega
  constructor
  · unfold select_angles_for_posts
    rw [if_neg (by simpa using Nat.not_lt.mpr h₁), if_neg (by simpa using Nat.not_lt.mpr h₂)]
    congr 1
    exact selectLoop_congr articles₁ articles₂ choice num_posts 0 []
      (fun j hj0 hjn =>
        getD_eq_of_take_eq articles₁ articles₂ num_posts j default htake (by omega))
  · refine ⟨selectLoop articles₁ choice num_posts 0 [],
      by simp [select_angles_for_posts, Nat.not_lt.mpr h₁], ?_⟩
    rw [selectLoop_map_fst articles₁ choice num_posts 0 [] (by omega)]
    simp

/-- C9 witness: appending a second article beyond the requested single
post does not change the selection, and the returned tuple pairs the first
article. -/
theorem select_angles_prefix_spec_witness :
    select_angles_for_posts [demoArticle] (fun _ => 0) 1 =
      select_angles_for_posts [demoArticle, demoArticle] (fun _ => 0) 1 ∧
    ∃ r, select_angles_for_posts [demoArticle] (fun _ => 0) 1 = .ok r ∧
      r.map (fun t => t.1) = [demoArticle].take 1 :=
  select_angles_prefix_spec [demoArticle] [demoArticle, demoArticle]
    (fun _ => 0) 1 (by decide) (by decide)

end RssToLinkedin
